import Mathlib

/-!
Verification development for `gitday` (src/main.rs), a CLI tool that renders a
calendar heatmap of commit activity.

Shallow embedding conventions:
* Calendar dates (`chrono::Date<Utc>` / `NaiveDate`) are modelled as proleptic
  Gregorian day numbers (Rata Die): day 1 = 0001-01-01, which is a Monday, so
  `d % 7 = 0` means the day `d` is a Sunday.  The Unix epoch 1970-01-01 is
  day 719163.
* Unix timestamps (`commit.time().seconds()`) are `Int` seconds since epoch.
* The `HashMap<Date<Utc>, u8>` calendar is modelled as an association list
  `List (Int × Nat)`; the `u8` counter wraps modulo 256 (the two's-complement
  wrapping semantics of `*v += 1` in a release build).
* Fallible operations (`Option`-returning chrono calls) return `Option`;
  a panic (an `unwrap` on an error value) is modelled as `none` propagating
  out of the whole computation.
-/

namespace Gitday

/-- Rata Die day number of January 4 of Gregorian year `y`
(`365 * (y-1) + ⌊(y-1)/4⌋ - ⌊(y-1)/100⌋ + ⌊(y-1)/400⌋ + 4`; `Int./` is
Euclidean division, which is floor division for the positive divisors used). -/
def jan4 (y : Int) : Int :=
  365 * (y - 1) + (y - 1) / 4 - (y - 1) / 100 + (y - 1) / 400 + 4

/-- The Monday of ISO week 1 of ISO year `y`: the Monday of the week containing
January 4 (ISO 8601, the definition chrono implements).  Mondays are the days
`≡ 1 (mod 7)` in Rata Die numbering. -/
def isoWeek1Monday (y : Int) : Int :=
  jan4 y - (jan4 y - 1) % 7

/-- Models `NaiveDate::from_isoywd(y, w, Weekday::Sun)` (src/main.rs line 59):
the Sunday (last day) of ISO week `w` of ISO year `y`, as a day number.
chrono additionally panics when `w` is not a valid week of ISO year `y`; the
week-number validation is not modelled (the weekday facts proved below hold
for every `y` and `w`). -/
def from_isoywd_sun (y w : Int) : Int :=
  isoWeek1Monday y + 7 * (w - 1) + 6

/-- Smallest day number representable by `chrono::NaiveDate` (January 1 of
year -262144). -/
def naiveDateMin : Int := -95746495

/-- Largest day number representable by `chrono::NaiveDate` (December 31 of
year 262143). -/
def naiveDateMax : Int := 95745764

/-- Models `date.checked_sub_signed(Duration::weeks(n))` (src/main.rs line 65):
`some` of the day `7 * n` days earlier when that day is representable,
`none` on overflow of the date range. -/
def checked_sub_weeks (d n : Int) : Option Int :=
  if naiveDateMin ≤ d - 7 * n ∧ d - 7 * n ≤ naiveDateMax then some (d - 7 * n)
  else none

/-- The window-start date (src/main.rs lines 55-70): the Sunday of ISO week `w`
of year `y` (the values the program reads from the current clock), rewound
`n` weeks.  The code then attaches the fixed time-of-day 12:00:00 and the UTC
offset, neither of which changes the date. -/
def start_date (y w n : Int) : Option Int :=
  checked_sub_weeks (from_isoywd_sun y w) n

/-- The Unix timestamp of `start_time` (noon UTC on day `d`). -/
def noonTimestamp (d : Int) : Int :=
  (d - 719163) * 86400 + 43200

/-- Models
`DateTime::<Utc>::from_utc(NaiveDateTime::from_timestamp(t, 0), Utc).date()`
(src/main.rs lines 87-91): the UTC calendar day containing Unix timestamp `t`. -/
def dayOf (t : Int) : Int :=
  719163 + t / 86400

/-- Models `print_square` (src/main.rs lines 22-36): the xterm-256 color code
selected for a cell holding `commit_nb` commits.  The glyph itself is the same
for every cell; only the color varies. -/
def print_square (commit_nb : Nat) : Nat :=
  if 3 < commit_nb then 255
  else if 2 < commit_nb then 251
  else if 1 < commit_nb then 249
  else if 0 < commit_nb then 246
  else 238

/-- The calendar `HashMap<Date<Utc>, u8>` (src/main.rs line 53), modelled as an
association list from day numbers to `u8` counts. -/
abbrev Calendar := List (Int × Nat)

/-- Models `calendar.get(&d)` for an association-list calendar. -/
def calGet (cal : Calendar) (d : Int) : Option Nat :=
  (cal.find? (fun p => p.1 == d)).map Prod.snd

/-- The day keys present in the calendar. -/
def calKeys (cal : Calendar) : List Int :=
  cal.map Prod.fst

/-- Models the increment step (src/main.rs lines 93-100): bump the counter of
day `d`, inserting it with count 1 when absent.  The counter is a `u8`, so the
increment wraps modulo 256 (`*v += 1` wraps in a release build; a debug build
would panic at 255 — either way the count does not increase past 255). -/
def calBump (cal : Calendar) (d : Int) : Calendar :=
  match calGet cal d with
  | some _ => cal.map (fun p => if p.1 = d then (p.1, (p.2 + 1) % 256) else p)
  | none => (d, 1) :: cal

/-- A commit as the scanner sees it: the author email
(`commit.author().email()`, `none` when not resolvable) and the commit
timestamp in seconds (`commit.time().seconds()`). -/
structure Commit where
  authorEmail : Option String
  time : Int
deriving DecidableEq

/-- Models the revwalk loop over one repository (src/main.rs lines 78-104).
Each walk entry is `none` when the revwalk yielded an error or
`repo.find_commit` failed (the `if let Ok` guards skip it), and `some c`
for a successfully looked-up commit.  A commit older than `startTs` stops the
walk (`break`).  Otherwise `commit.author().email().ok_or("unknown").unwrap()`
is evaluated: when the email is unresolvable this `unwrap` panics, modelled as
the whole scan returning `none`.  On an email match the commit's UTC day
counter is bumped.  Returns `some` of the final calendar when no panic
occurs. -/
def scanCommits (startTs : Int) (email : String) :
    Calendar → List (Option Commit) → Option Calendar
  | cal, [] => some cal
  | cal, none :: rest => scanCommits startTs email cal rest
  | cal, some c :: rest =>
    if c.time < startTs then some cal
    else
      match c.authorEmail with
      | none => none
      | some e =>
        scanCommits startTs email
          (if email = e then calBump cal (dayOf c.time) else cal) rest

/-- One token of terminal output: a colored glyph or a newline. -/
inductive Out where
  | glyph (color : Nat) : Out
  | newline : Out
deriving DecidableEq

/-- The color printed for the cell at day-of-week offset `shift` and week
offset `i` (src/main.rs lines 110-114): look up
`first_day + (shift + i * 7)` days, defaulting to 0 when absent. -/
def cellColor (cal : Calendar) (firstDay shift i : Int) : Nat :=
  print_square ((calGet cal (firstDay + (shift + i * 7))).getD 0)

/-- One row of output (src/main.rs lines 109-116): the inner loop
`for i in 0..nb_weeks` prints one glyph per week offset with no separator,
then `println!("")` emits the newline.  For `nbWeeks ≤ 0` the Rust range
`0..nb_weeks` is empty, matching `Int.toNat`. -/
def renderRow (cal : Calendar) (firstDay nbWeeks shift : Int) : List Out :=
  ((List.range nbWeeks.toNat).map
    (fun (i : Nat) => Out.glyph (cellColor cal firstDay shift (i : Int)))) ++ [Out.newline]

/-- The full output stream (src/main.rs lines 108-117): the outer loop
`for shift in 0..7` emits the seven day-of-week rows in order.
(`checked_add_signed(...).unwrap()` can only panic at the ±262143-year bounds
of `NaiveDate`, unreachable from a window start derived from the current
clock; cell dates are modelled as plain `Int` addition.) -/
def renderOut (cal : Calendar) (firstDay nbWeeks : Int) : List Out :=
  (List.range 7).flatMap
    (fun (shift : Nat) => renderRow cal firstDay nbWeeks (shift : Int))

/-- Parse an output stream back into rows of colors: glyphs accumulate into the
current row, each newline terminates a row. -/
def rowsAux : List Out → List Nat → List (List Nat)
  | [], _ => []
  | Out.newline :: rest, acc => acc.reverse :: rowsAux rest []
  | Out.glyph c :: rest, acc => rowsAux rest (c :: acc)

/-- The rows of an output stream. -/
def rowsOf (s : List Out) : List (List Nat) := rowsAux s []

/-! ## Unfolding lemmas for the scan -/

lemma scanCommits_nil (startTs : Int) (email : String) (cal : Calendar) :
    scanCommits startTs email cal [] = some cal := rfl

lemma scanCommits_err (startTs : Int) (email : String) (cal : Calendar)
    (rest : List (Option Commit)) :
    scanCommits startTs email cal (none :: rest) = scanCommits startTs email cal rest := rfl

lemma scanCommits_old (startTs : Int) (email : String) (cal : Calendar)
    (c : Commit) (rest : List (Option Commit)) (h : c.time < startTs) :
    scanCommits startTs email cal (some c :: rest) = some cal := by
  simp only [scanCommits]
  rw [if_pos h]

lemma scanCommits_panic (startTs : Int) (email : String) (cal : Calendar)
    (c : Commit) (rest : List (Option Commit))
    (h1 : ¬c.time < startTs) (h2 : c.authorEmail = none) :
    scanCommits startTs email cal (some c :: rest) = none := by
  simp only [scanCommits]
  rw [if_neg h1, h2]

lemma scanCommits_step (startTs : Int) (email : String) (cal : Calendar)
    (c : Commit) (rest : List (Option Commit)) (e : String)
    (h1 : ¬c.time < startTs) (h2 : c.authorEmail = some e) :
    scanCommits startTs email cal (some c :: rest)
      = scanCommits startTs email
          (if email = e then calBump cal (dayOf c.time) else cal) rest := by
  simp only [scanCommits]
  rw [if_neg h1, h2]

/-! ## Helper lemmas about the calendar map -/

lemma calGet_cons (p : Int × Nat) (rest : Calendar) (d : Int) :
    calGet (p :: rest) d = if p.1 = d then some p.2 else calGet rest d := by
  by_cases h : p.1 = d
  · rw [if_pos h]
    unfold calGet
    rw [List.find?_cons_of_pos _ (by simp [h])]
    rfl
  · rw [if_neg h]
    unfold calGet
    rw [List.find?_cons_of_neg _ (by simp [h])]

lemma calGet_map_bump (cal : Calendar) (d : Int) (v : Nat) (h : calGet cal d = some v) :
    calGet (cal.map (fun p => if p.1 = d then (p.1, (p.2 + 1) % 256) else p)) d
      = some ((v + 1) % 256) := by
  induction cal with
  | nil => simp [calGet] at h
  | cons p rest ih =>
    rw [calGet_cons] at h
    rw [List.map_cons, calGet_cons]
    have hfst : (if p.1 = d then (p.1, (p.2 + 1) % 256) else p).1 = p.1 := by
      by_cases hp : p.1 = d <;> simp [hp]
    rw [hfst]
    by_cases hp : p.1 = d
    · rw [if_pos hp] at h ⊢
      obtain rfl : p.2 = v := Option.some.inj h
      simp [hp]
    · rw [if_neg hp] at h ⊢
      exact ih h

lemma calGet_map_bump_ne (cal : Calendar) (d d' : Int) (h : d' ≠ d) :
    calGet (cal.map (fun p => if p.1 = d then (p.1, (p.2 + 1) % 256) else p)) d'
      = calGet cal d' := by
  induction cal with
  | nil => rfl
  | cons p rest ih =>
    rw [List.map_cons, calGet_cons, calGet_cons]
    have hfst : (if p.1 = d then (p.1, (p.2 + 1) % 256) else p).1 = p.1 := by
      by_cases hp : p.1 = d <;> simp [hp]
    rw [hfst]
    by_cases hp : p.1 = d'
    · rw [if_pos hp, if_pos hp]
      have hnd : ¬p.1 = d := by rw [hp]; exact h
      simp [hnd]
    · rw [if_neg hp, if_neg hp]
      exact ih

lemma calGet_calBump_self (cal : Calendar) (d : Int)
    (h : (calGet cal d).getD 0 < 255) :
    calGet (calBump cal d) d = some ((calGet cal d).getD 0 + 1) := by
  unfold calBump
  cases hg : calGet cal d with
  | none =>
    rw [calGet_cons, if_pos rfl]
    rfl
  | some v =>
    have hv : v < 255 := by rw [hg] at h; simpa using h
    rw [calGet_map_bump cal d v hg]
    simp [Nat.mod_eq_of_lt (by omega : v + 1 < 256)]

lemma calGet_calBump_ne (cal : Calendar) (d d' : Int) (h : d' ≠ d) :
    calGet (calBump cal d) d' = calGet cal d' := by
  unfold calBump
  cases hg : calGet cal d with
  | none =>
    rw [calGet_cons, if_neg (fun hh => h hh.symm)]
  | some v =>
    exact calGet_map_bump_ne cal d d' h

lemma calKeys_calBump_subset (cal : Calendar) (d k : Int)
    (h : k ∈ calKeys (calBump cal d)) :
    k = d ∨ k ∈ calKeys cal := by
  unfold calBump at h
  cases hg : calGet cal d with
  | none =>
    rw [hg] at h
    unfold calKeys at h
    rw [List.map_cons] at h
    rcases List.mem_cons.mp h with h1 | h1
    · exact Or.inl h1
    · exact Or.inr h1
  | some v =>
    rw [hg] at h
    right
    have hkeys :
        calKeys (cal.map (fun p => if p.1 = d then (p.1, (p.2 + 1) % 256) else p))
          = calKeys cal := by
      unfold calKeys
      rw [List.map_map]
      congr 1
      funext p
      by_cases hp : p.1 = d <;> simp [hp]
    rw [hkeys] at h
    exact h

/-! ## Helper lemmas about dates and rendering -/

lemma dayOf_mono {s t : Int} (h : s ≤ t) : dayOf s ≤ dayOf t := by
  unfold dayOf
  have := Int.ediv_le_ediv (by norm_num : (0 : Int) < 86400) h
  omega

lemma rowsAux_glyphs (gs : List Nat) (l : List Out) (acc : List Nat) :
    rowsAux (gs.map Out.glyph ++ l) acc = rowsAux l (gs.reverse ++ acc) := by
  induction gs generalizing acc with
  | nil => simp
  | cons g gs ih => simp [rowsAux, ih]

lemma rowsAux_rows_general (f : Nat → Nat → Nat) (N : Nat) (ds : List Nat) :
    rowsAux (ds.flatMap (fun s =>
        ((List.range N).map (fun i => Out.glyph (f s i))) ++ [Out.newline])) []
      = ds.map (fun s => (List.range N).map (f s)) := by
  induction ds with
  | nil => rfl
  | cons s rest ih =>
    rw [List.flatMap_cons, List.append_assoc]
    have hglyph : (List.range N).map (fun i => Out.glyph (f s i))
        = ((List.range N).map (f s)).map Out.glyph := by
      rw [List.map_map]
      rfl
    rw [hglyph, rowsAux_glyphs]
    simp [rowsAux, ih]

lemma renderOut_toNat_zero (cal : Calendar) (firstDay nbWeeks : Int)
    (h : nbWeeks.toNat = 0) :
    renderOut cal firstDay nbWeeks = List.replicate 7 Out.newline := by
  simp only [renderOut, renderRow, h, List.range_zero, List.map_nil, List.nil_append]
  rfl

/-! ## Claim theorems -/

/-- Claim C1: the spec says a commit whose author has no resolvable email is
treated as non-matching and skipped, never as fatal.  The code instead calls
`commit.author().email().ok_or("unknown").unwrap()` (src/main.rs line 85):
for an unresolvable email, `ok_or` yields `Err("unknown")` and the `unwrap`
panics, aborting the program.  Evaluated here on a repository whose single
walked commit sits inside the window (window start noon Sunday 2023-01-01
UTC, timestamp 1672574400) and has no author email: the scan panics
(modelled as `none`) instead of returning the unchanged empty calendar. -/
theorem scan_panics_on_missing_email :
    scanCommits 1672574400 "user@example.com" [] [some ⟨none, 1672574400⟩] = none := by
  decide

/-- Claim C2, counterexample: the calendar counter is a `u8`.  With the day
counter already at 255, processing one more matching in-window commit does not
increase it by one: the increment wraps to 0 (count 256 is not representable).
Window start noon Sunday 2023-01-01 UTC (timestamp 1672574400, day 738521);
the commit is at exactly that timestamp with the matching author email. -/
theorem bucket_overflow_at_255 :
    scanCommits 1672574400 "user@example.com" [(738521, 255)]
        [some ⟨some "user@example.com", 1672574400⟩]
      = some [(738521, 0)]
    ∧ (0 : Nat) ≠ 255 + 1 := by
  decide

/-- Claim C2, amended: for every commit with timestamp ≥ the window start and
author email exactly equal to the target email, processing that commit bumps
the Calendar count for the commit's UTC day by exactly one (inserting the key
with count 1 if absent) provided the prior count is below 255 (the `u8`
counter's maximum), and leaves every other day key unchanged. -/
theorem bucket_increments_by_one (startTs t : Int) (email : String)
    (cal : Calendar) (d' : Int)
    (h1 : startTs ≤ t)
    (h2 : (calGet cal (dayOf t)).getD 0 < 255)
    (h3 : d' ≠ dayOf t) :
    scanCommits startTs email cal [some ⟨some email, t⟩]
      = some (calBump cal (dayOf t))
    ∧ calGet (calBump cal (dayOf t)) (dayOf t)
      = some ((calGet cal (dayOf t)).getD 0 + 1)
    ∧ calGet (calBump cal (dayOf t)) d' = calGet cal d' := by
  refine ⟨?_, calGet_calBump_self cal (dayOf t) h2, calGet_calBump_ne cal (dayOf t) d' h3⟩
  rw [scanCommits_step startTs email cal ⟨some email, t⟩ [] email (not_lt.mpr h1) rfl,
    if_pos rfl, scanCommits_nil]

/-- Witness for `bucket_increments_by_one` at startTs 0, a matching commit at
timestamp 86400 (day 719164), the empty calendar, and other key 0. -/
theorem bucket_increments_by_one_witness :
    ((0 : Int) ≤ 86400
      ∧ (calGet [] (dayOf 86400)).getD 0 < 255
      ∧ (0 : Int) ≠ dayOf 86400)
    ∧ (scanCommits 0 "a@b" [] [some ⟨some "a@b", 86400⟩]
        = some (calBump [] (dayOf 86400))
      ∧ calGet (calBump [] (dayOf 86400)) (dayOf 86400)
        = some ((calGet [] (dayOf 86400)).getD 0 + 1)
      ∧ calGet (calBump [] (dayOf 86400)) 0 = calGet [] 0) :=
  ⟨⟨by decide, by decide, by decide⟩,
    bucket_increments_by_one 0 86400 "a@b" [] 0 (by decide) (by decide) (by decide)⟩

/-- Claim C3, counterexample: the scan checks only the lower window bound
(`commit.time().seconds() < start_time.timestamp()`, src/main.rs line 82);
there is no upper-bound check.  With window start noon Sunday 2023-01-01 UTC
(timestamp 1672574400, day 738521) and `nb_weeks = 1`, the window is
`[738521, 738528)`; a matching commit 14 days in the future
(timestamp 1673784000) inserts day key 738535, at/past the window end. -/
theorem future_commit_escapes_window :
    scanCommits 1672574400 "user@example.com" []
        [some ⟨some "user@example.com", 1673784000⟩]
      = some [(738535, 1)]
    ∧ dayOf 1672574400 + 7 * 1 ≤ 738535 := by
  decide

/-- Claim C3, amended: the lower bound of the invariant holds.  If every day
key of the starting calendar is ≥ the window-start day, then after any scan
that completes without panicking, every day key of the resulting calendar is
still ≥ the window-start day (`dayOf startTs`): no key earlier than the window
start is ever inserted. -/
theorem scan_keys_ge_window_start (startTs : Int) (email : String)
    (cal cal' : Calendar) (entries : List (Option Commit)) (k : Int)
    (hcal : ∀ j ∈ calKeys cal, dayOf startTs ≤ j)
    (hscan : scanCommits startTs email cal entries = some cal')
    (hk : k ∈ calKeys cal') :
    dayOf startTs ≤ k := by
  revert hcal hscan
  induction entries generalizing cal with
  | nil =>
    intro hcal hscan
    rw [scanCommits_nil] at hscan
    cases Option.some.inj hscan
    exact hcal k hk
  | cons e rest ih =>
    intro hcal hscan
    match e with
    | none =>
      rw [scanCommits_err] at hscan
      exact ih cal hcal hscan
    | some c =>
      by_cases hlt : c.time < startTs
      · rw [scanCommits_old startTs email cal c rest hlt] at hscan
        cases Option.some.inj hscan
        exact hcal k hk
      · cases hc : c.authorEmail with
        | none =>
          rw [scanCommits_panic startTs email cal c rest hlt hc] at hscan
          exact absurd hscan (by simp)
        | some e' =>
          rw [scanCommits_step startTs email cal c rest e' hlt hc] at hscan
          by_cases he : email = e'
          · rw [if_pos he] at hscan
            refine ih (calBump cal (dayOf c.time)) ?_ hscan
            intro j hj
            rcases calKeys_calBump_subset cal (dayOf c.time) j hj with h1 | h1
            · subst h1; exact dayOf_mono (not_lt.mp hlt)
            · exact hcal j h1
          · rw [if_neg he] at hscan
            exact ih cal hcal hscan

/-- Witness for `scan_keys_ge_window_start`: window start timestamp 0
(day 719163), one matching commit at timestamp 86400 inserting day 719164. -/
theorem scan_keys_ge_window_start_witness :
    ((∀ j ∈ calKeys ([] : Calendar), dayOf 0 ≤ j)
      ∧ scanCommits 0 "a@b" [] [some ⟨some "a@b", 86400⟩] = some [(719164, 1)]
      ∧ (719164 : Int) ∈ calKeys [(719164, 1)])
    ∧ dayOf 0 ≤ 719164 :=
  ⟨⟨by decide, by decide, by decide⟩,
    scan_keys_ge_window_start 0 "a@b" [] [(719164, 1)]
      [some ⟨some "a@b", 86400⟩] 719164 (by decide) (by decide) (by decide)⟩

/-- Claim C4: if every successfully looked-up commit before `old` in the walk
has timestamp ≥ the window start and `old` is older than the window start,
then the scan of the whole walk equals the scan of the prefix before `old`:
the walk stops at the first too-old commit (`break`, src/main.rs line 83), and
neither that commit nor anything after it ever touches the Calendar. -/
theorem scan_stops_at_first_old (startTs : Int) (email : String)
    (cal : Calendar) (pre post : List (Option Commit)) (old : Commit)
    (hpre : ∀ c : Commit, some c ∈ pre → startTs ≤ c.time)
    (hold : old.time < startTs) :
    scanCommits startTs email cal (pre ++ some old :: post)
      = scanCommits startTs email cal pre := by
  revert hpre
  induction pre generalizing cal with
  | nil =>
    intro _
    rw [List.nil_append, scanCommits_old startTs email cal old post hold, scanCommits_nil]
  | cons e rest ih =>
    intro hpre
    match e with
    | none =>
      rw [List.cons_append, scanCommits_err, scanCommits_err]
      exact ih cal (fun c hc => hpre c (List.mem_cons_of_mem _ hc))
    | some c =>
      have hc := not_lt.mpr (hpre c (List.mem_cons_self _ _))
      rw [List.cons_append]
      cases hmail : c.authorEmail with
      | none =>
        rw [scanCommits_panic startTs email cal c _ hc hmail,
          scanCommits_panic startTs email cal c rest hc hmail]
      | some e' =>
        rw [scanCommits_step startTs email cal c _ e' hc hmail,
          scanCommits_step startTs email cal c rest e' hc hmail]
        exact ih _ (fun c' hc' => hpre c' (List.mem_cons_of_mem _ hc'))

/-- Witness for `scan_stops_at_first_old`: window start 10, a matching commit
at timestamp 100, then a commit at timestamp 0 followed by one at 50; the scan
equals the scan of the first commit alone. -/
theorem scan_stops_at_first_old_witness :
    ((∀ c : Commit, some c ∈ [some (⟨some "a@b", 100⟩ : Commit)] → (10 : Int) ≤ c.time)
      ∧ (0 : Int) < 10)
    ∧ scanCommits 10 "a@b" []
        ([some ⟨some "a@b", 100⟩] ++ some ⟨some "a@b", 0⟩ :: [some ⟨some "a@b", 50⟩])
      = scanCommits 10 "a@b" [] [some ⟨some "a@b", 100⟩] :=
  ⟨⟨by intro c hc; rw [List.mem_singleton] at hc; cases Option.some.inj hc; decide,
      by decide⟩,
    scan_stops_at_first_old 10 "a@b" [] [some ⟨some "a@b", 100⟩]
      [some ⟨some "a@b", 50⟩] ⟨some "a@b", 0⟩
      (by intro c hc; rw [List.mem_singleton] at hc; cases Option.some.inj hc; decide)
      (by decide)⟩

/-- Claim C5: a commit whose timestamp equals the window-start timestamp
exactly is not cut off: the `break` guard `time < start` is false at equality,
so the commit is yielded to the bucketer, and (with a matching author email)
its UTC day counter is bumped before the scan continues. -/
theorem boundary_commit_included (startTs : Int) (email : String)
    (cal : Calendar) (c : Commit) (rest : List (Option Commit))
    (ht : c.time = startTs) (he : c.authorEmail = some email) :
    scanCommits startTs email cal (some c :: rest)
      = scanCommits startTs email (calBump cal (dayOf c.time)) rest := by
  rw [scanCommits_step startTs email cal c rest email
      (by rw [ht]; exact lt_irrefl startTs) he,
    if_pos rfl]

/-- Witness for `boundary_commit_included`: a commit exactly at window-start
timestamp 1672574400 with the matching email. -/
theorem boundary_commit_included_witness :
    ((⟨some "a@b", 1672574400⟩ : Commit).time = 1672574400
      ∧ (⟨some "a@b", 1672574400⟩ : Commit).authorEmail = some "a@b")
    ∧ scanCommits 1672574400 "a@b" [] [some ⟨some "a@b", 1672574400⟩]
      = scanCommits 1672574400 "a@b"
          (calBump [] (dayOf (⟨some "a@b", 1672574400⟩ : Commit).time)) [] :=
  ⟨⟨by decide, by decide⟩,
    boundary_commit_included 1672574400 "a@b" [] ⟨some "a@b", 1672574400⟩ []
      (by decide) (by decide)⟩

/-- Claim C6: whenever the window-start computation succeeds, the resulting
date is a Sunday (day number ≡ 0 mod 7 in Rata Die numbering, where day 1 =
0001-01-01 is a Monday): `from_isoywd(year, week, Weekday::Sun)` lands on the
Sunday of an ISO week, and subtracting whole weeks preserves the weekday. -/
theorem start_date_is_sunday (y w n d : Int) (h : start_date y w n = some d) :
    d % 7 = 0 := by
  unfold start_date checked_sub_weeks from_isoywd_sun isoWeek1Monday at h
  split at h
  · cases Option.some.inj h
    omega
  · exact absurd h (by simp)

/-- Witness for `start_date_is_sunday`: ISO year 2026, week 1, 0 weeks back
gives day 739620 (2026-01-04), a Sunday. -/
theorem start_date_is_sunday_witness :
    start_date 2026 1 0 = some 739620 ∧ (739620 : Int) % 7 = 0 :=
  ⟨by decide, start_date_is_sunday 2026 1 0 739620 (by decide)⟩

/-- Claim C7: `print_square`'s count-to-color mapping is exactly the fixed
threshold table — count 0 gives color 238 (lowest), 1 gives 246 (low),
2 gives 249 (medium), 3 gives 251 (high), and every count ≥ 4 gives 255
(highest) — and the five color codes are strictly increasing (monotonic). -/
theorem print_square_threshold_table (n : Nat) (h : 4 ≤ n) :
    print_square 0 = 238 ∧ print_square 1 = 246 ∧ print_square 2 = 249
    ∧ print_square 3 = 251 ∧ print_square n = 255
    ∧ 238 < 246 ∧ 246 < 249 ∧ 249 < 251 ∧ 251 < 255 := by
  refine ⟨rfl, rfl, rfl, rfl, ?_, by decide, by decide, by decide, by decide⟩
  unfold print_square
  rw [if_pos (by omega : 3 < n)]

/-- Witness for `print_square_threshold_table` at count 4. -/
theorem print_square_threshold_table_witness :
    4 ≤ 4
    ∧ (print_square 0 = 238 ∧ print_square 1 = 246 ∧ print_square 2 = 249
      ∧ print_square 3 = 251 ∧ print_square 4 = 255
      ∧ 238 < 246 ∧ 246 < 249 ∧ 249 < 251 ∧ 251 < 255) :=
  ⟨by decide, print_square_threshold_table 4 (by decide)⟩

/-- Claim C8: for every calendar and week count N ≥ 0, the emitted token
stream parses into exactly 7 rows (day-of-week offsets 0..6, Sunday first,
in outer-loop order) of N cells each (week offsets 0..N-1, oldest week first),
where the cell at day offset `shift` and week offset `i` is the glyph colored
by the count at day `first_day + (shift + i*7)` (0 when absent): one glyph per
cell with no separator and one newline per row. -/
theorem render_grid_structure (cal : Calendar) (firstDay nbWeeks : Int)
    (h : 0 ≤ nbWeeks) :
    rowsOf (renderOut cal firstDay nbWeeks)
      = (List.range 7).map (fun (shift : Nat) =>
          (List.range nbWeeks.toNat).map (fun (i : Nat) =>
            print_square
              ((calGet cal (firstDay + ((shift : Int) + (i : Int) * 7))).getD 0)))
    ∧ (rowsOf (renderOut cal firstDay nbWeeks)).length = 7
    ∧ ∀ row ∈ rowsOf (renderOut cal firstDay nbWeeks), row.length = nbWeeks.toNat := by
  have hmain :
      rowsOf (renderOut cal firstDay nbWeeks)
        = (List.range 7).map (fun (shift : Nat) =>
            (List.range nbWeeks.toNat).map (fun (i : Nat) =>
              print_square
                ((calGet cal (firstDay + ((shift : Int) + (i : Int) * 7))).getD 0))) := by
    unfold rowsOf renderOut renderRow cellColor
    exact rowsAux_rows_general _ nbWeeks.toNat (List.range 7)
  refine ⟨hmain, ?_, ?_⟩
  · rw [hmain, List.length_map, List.length_range]
  · intro row hrow
    rw [hmain] at hrow
    rcases List.mem_map.mp hrow with ⟨s, _, rfl⟩
    rw [List.length_map, List.length_range]

/-- Witness for `render_grid_structure`: empty calendar, first day 0, one
week: seven rows of one lowest-intensity cell. -/
theorem render_grid_structure_witness :
    (0 : Int) ≤ 1
    ∧ (rowsOf (renderOut [] 0 1)
        = (List.range 7).map (fun (shift : Nat) =>
            (List.range (1 : Int).toNat).map (fun (i : Nat) =>
              print_square
                ((calGet [] ((0 : Int) + ((shift : Int) + (i : Int) * 7))).getD 0)))
      ∧ (rowsOf (renderOut [] 0 1)).length = 7
      ∧ ∀ row ∈ rowsOf (renderOut [] 0 1), row.length = (1 : Int).toNat) :=
  ⟨by decide, render_grid_structure [] 0 1 (by decide)⟩

/-- Claim C9: with a week count of 0, the renderer emits exactly 7 bare
newlines — seven rows of zero cells — and nothing else, for every calendar
and window start; no cell is ever computed, so nothing can crash. -/
theorem render_zero_weeks :
    ∀ (cal : Calendar) (firstDay : Int),
      renderOut cal firstDay 0 = List.replicate 7 Out.newline :=
  fun cal firstDay => renderOut_toNat_zero cal firstDay 0 rfl

/-- Claim C10: a strictly negative week count `n` is accepted as-is (the
`-w` flag is a plain `i64` with no validation).  `checked_sub_signed` of a
negative number of weeks moves the window start forward by `7 * |n|` days,
and the render loop `for i in 0..nb_weeks` is empty, so the output is seven
bare newlines (7 rows of 0 cells). -/
theorem negative_weeks_accepted (y w n d firstDay : Int) (cal : Calendar)
    (hn : n < 0) (hs : start_date y w n = some d) :
    d = from_isoywd_sun y w + 7 * (-n)
    ∧ renderOut cal firstDay n = List.replicate 7 Out.newline := by
  constructor
  · unfold start_date checked_sub_weeks at hs
    split at hs
    · cases Option.some.inj hs
      ring
    · exact absurd hs (by simp)
  · exact renderOut_toNat_zero cal firstDay n (Int.toNat_of_nonpos (le_of_lt hn))

/-- Witness for `negative_weeks_accepted`: ISO year 2026, week 1, `n = -1`:
window start day 739627 (one week after Sunday 2026-01-04), and the render of
the empty calendar is seven bare newlines. -/
theorem negative_weeks_accepted_witness :
    ((-1 : Int) < 0 ∧ start_date 2026 1 (-1) = some 739627)
    ∧ ((739627 : Int) = from_isoywd_sun 2026 1 + 7 * (-(-1))
      ∧ renderOut [] 0 (-1) = List.replicate 7 Out.newline) :=
  ⟨⟨by decide, by decide⟩,
    negative_weeks_accepted 2026 1 (-1) 739627 0 [] (by decide) (by decide)⟩

end Gitday
